import Mathlib

/-
Verification of the Selector Intelligence subsystem
(SelectorBank.ts, SelectorPersistence.ts, SelectorResolver, SelectorSeeder.ts).

Shallow embedding conventions:
- JS numbers are modelled as rationals where division occurs (confidence,
  avgResponseTime, responseTime) and naturals for counters and timestamps.
- Date values are modelled as natural-number timestamps supplied as explicit
  parameters at each call (the code calls new Date at the same points).
- The JS Map from elementType to candidate arrays is modelled as an
  insertion-ordered association list; Map.get returns the stored array
  and Map.set replaces in place or appends a new key at the end.
- Array.prototype.sort with comparator (a, b) => b.confidence - a.confidence
  is stable (ES2019); it is modelled by insertion sort with the reflexive
  relation confGe, which is stable and sorts descending.
- Math.random().toString(36).substring(2, 15) in addCandidate is an external
  nondeterministic source; the drawn string is passed as an explicit id
  parameter to the modelled operation.
- The SQLite store is modelled by the effects of the SQL statements the code
  issues: saveSelector is INSERT OR REPLACE keyed by id, recordInteraction
  appends a history row and applies the UPDATE to rows matching the id.
  The imported driver better-sqlite3 enforces the declared foreign key of
  selector_history by default (its bundled SQLite is compiled with foreign
  keys on), so the history INSERT throws FOREIGN KEY constraint failed when
  its selector_id has no row in the selectors table. recordInteractionE,
  promoteSelectorE and degradeSelectorE model this fallible call as Except
  values; recordInteraction and the operations built on it model the
  successful path, the one taken whenever the interacted-on id has a durable
  row - true of every program-reachable interaction, since every candidate
  entering the bank is saved to the store at creation.
- The page-probe capability (page.waitForSelector, page.$$) is external to
  the subsystem; it is modelled by an abstract function from the normalized
  selector expression to the probe outcome, and per-probe wall-clock cost is
  an abstract duration function so that elapsed time can be expressed.
-/

/-- UIContext from src/types/index.ts: pageUrl, collapsed, tier, mobile. -/
structure UIContext where
  pageUrl : String
  collapsed : Bool
  tier : String
  mobile : Bool
deriving DecidableEq

/-- SelectorStrategy from src/types/index.ts. The source names class and id
are Lean keywords, rendered here as cls and ident; structure is struct. -/
inductive SelectorStrategy where
  | aria
  | text
  | struct
  | cls
  | hybrid
  | css
  | ident
deriving DecidableEq

/-- SelectorCandidate record from src/types/index.ts. -/
structure SelectorCandidate where
  id : String
  elementType : String
  selectorStrategy : SelectorStrategy
  selectorValue : String
  confidence : ℚ
  successCount : ℕ
  failureCount : ℕ
  lastSuccess : Option ℕ
  lastFailure : Option ℕ
  avgResponseTime : ℚ
  uiContext : UIContext
  generatedAt : ℕ
  retiredAt : Option ℕ
deriving DecidableEq

/-- Action recorded in the selector_history table. -/
inductive InteractionAction where
  | success
  | failure
deriving DecidableEq

/-- One row of the selector_history table (SelectorPersistence.recordInteraction). -/
structure InteractionRecord where
  selectorId : String
  timestamp : ℕ
  action : InteractionAction
  responseTime : ℚ
  errorMessage : Option String
deriving DecidableEq

/-- Durable state: the selectors table (rows keyed by id) and the
append-only selector_history table. -/
structure StoreState where
  selectors : List SelectorCandidate
  history : List InteractionRecord
deriving DecidableEq

/-- The in-memory Map of SelectorBank: elementType to candidate array,
in key insertion order. -/
abbrev Bank := List (String × List SelectorCandidate)

/-- Whole-system state: the in-memory bank plus the durable store. -/
structure SysState where
  bank : Bank
  store : StoreState
deriving DecidableEq

/-- Map.get with the JS fallback to an empty array: this.selectors.get(t) or []. -/
def mapGet (m : Bank) (k : String) : List SelectorCandidate :=
  match m.find? (fun kv => kv.fst == k) with
  | some kv => kv.snd
  | none => []

/-- Map.set: replace the value at an existing key in place, else append. -/
def mapSet (m : Bank) (k : String) (v : List SelectorCandidate) : Bank :=
  match m with
  | [] => [(k, v)]
  | kv :: rest => if kv.fst == k then (k, v) :: rest else kv :: mapSet rest k v

/-- Ranking relation of getCandidates: the comparator
(a, b) => b.confidence - a.confidence orders by confidence descending. -/
def confGe (a b : SelectorCandidate) : Prop :=
  b.confidence ≤ a.confidence

instance : DecidableRel confGe :=
  fun a b => inferInstanceAs (Decidable (b.confidence ≤ a.confidence))

instance : IsTotal SelectorCandidate confGe :=
  ⟨fun a b => le_total b.confidence a.confidence⟩

instance : IsTrans SelectorCandidate confGe :=
  ⟨fun _ _ _ hab hbc => le_trans hbc hab⟩

/-- Filter of getCandidates: same mobile flag and not retired. -/
def contextMatch (q : UIContext) (c : SelectorCandidate) : Bool :=
  c.uiContext.mobile == q.mobile && c.retiredAt == none

/-- SelectorBank.getCandidates: filter by context and rank by confidence
descending; the JS sort is stable, modelled by stable insertion sort. -/
def getCandidates (bank : Bank) (elementType : String) (q : UIContext) : List SelectorCandidate :=
  List.insertionSort confGe ((mapGet bank elementType).filter (contextMatch q))

/-- The candidate literal built by SelectorBank.addCandidate; the id argument
models the Math.random draw, now models new Date. -/
def mkCandidate (elementType : String) (strategy : SelectorStrategy) (value : String)
    (q : UIContext) (confidence : ℚ) (id : String) (now : ℕ) : SelectorCandidate :=
  { id := id
    elementType := elementType
    selectorStrategy := strategy
    selectorValue := value
    confidence := confidence
    successCount := 0
    failureCount := 0
    lastSuccess := none
    lastFailure := none
    avgResponseTime := 0
    uiContext := q
    generatedAt := now
    retiredAt := none }

/-- SelectorPersistence.saveSelector: INSERT OR REPLACE keyed by id. -/
def saveSelector (st : StoreState) (c : SelectorCandidate) : StoreState :=
  if st.selectors.any (fun r => r.id == c.id) then
    { st with selectors := st.selectors.map (fun r => if r.id == c.id then c else r) }
  else
    { st with selectors := st.selectors ++ [c] }

/-- Effect of the success UPDATE in recordInteraction on one selectors row:
success_count + 1, last_success, running-mean avg_response_time.
The confidence column is not touched by this statement. -/
def rowSuccess (now : ℕ) (rt : ℚ) (r : SelectorCandidate) : SelectorCandidate :=
  { r with
      successCount := r.successCount + 1
      lastSuccess := some now
      avgResponseTime := (r.avgResponseTime * (r.successCount : ℚ) + rt) / ((r.successCount : ℚ) + 1) }

/-- Effect of the failure UPDATE in recordInteraction on one selectors row:
failure_count + 1 and last_failure; confidence is not touched. -/
def rowFailure (now : ℕ) (r : SelectorCandidate) : SelectorCandidate :=
  { r with
      failureCount := r.failureCount + 1
      lastFailure := some now }

/-- SelectorPersistence.recordInteraction: append one history row, then run
the UPDATE on the selectors rows matching the id. -/
def recordInteraction (st : StoreState) (id : String) (action : InteractionAction)
    (rt : ℚ) (now : ℕ) : StoreState :=
  let st1 : StoreState :=
    { st with history := st.history ++ [⟨id, now, action, rt, none⟩] }
  match action with
  | .success =>
      { st1 with selectors := st1.selectors.map (fun r => if r.id == id then rowSuccess now rt r else r) }
  | .failure =>
      { st1 with selectors := st1.selectors.map (fun r => if r.id == id then rowFailure now r else r) }

/-- In-memory success branch of SelectorBank.updateMemoryCache. -/
def promoteStep (now : ℕ) (rt : ℚ) (c : SelectorCandidate) : SelectorCandidate :=
  { c with
      successCount := c.successCount + 1
      lastSuccess := some now
      confidence := min 100 (c.confidence + 5)
      avgResponseTime := (c.avgResponseTime * (c.successCount : ℚ) + rt) / ((c.successCount : ℚ) + 1) }

/-- In-memory failure branch of SelectorBank.updateMemoryCache, including the
auto-retirement check. The source first mutates the candidate and then tests
the mutated confidence and failureCount, so the retirement condition is
written here on the updated values max 0 (confidence - 10) and
failureCount + 1. -/
def degradeStep (now : ℕ) (c : SelectorCandidate) : SelectorCandidate :=
  if max 0 (c.confidence - 10) < 10 ∧ 5 < c.failureCount + 1 then
    { c with
        failureCount := c.failureCount + 1
        lastFailure := some now
        confidence := max 0 (c.confidence - 10)
        retiredAt := some now }
  else
    { c with
        failureCount := c.failureCount + 1
        lastFailure := some now
        confidence := max 0 (c.confidence - 10) }

/-- Update the first element of a list satisfying p, leaving the rest alone
(Array.prototype.find followed by in-place mutation). -/
def updateFirst (p : SelectorCandidate → Bool) (f : SelectorCandidate → SelectorCandidate) :
    List SelectorCandidate → List SelectorCandidate
  | [] => []
  | c :: cs => if p c then f c :: cs else c :: updateFirst p f cs

/-- Whether a candidate array contains the id. -/
def bankHas (cs : List SelectorCandidate) (id : String) : Bool :=
  cs.any (fun c => c.id == id)

/-- The loop of updateMemoryCache: iterate map entries in insertion order,
mutate the first candidate found with the id, then break. -/
def bankUpdate (id : String) (f : SelectorCandidate → SelectorCandidate) : Bank → Bank
  | [] => []
  | (k, cs) :: rest =>
      if bankHas cs id then (k, updateFirst (fun c => c.id == id) f cs) :: rest
      else (k, cs) :: bankUpdate id f rest

/-- The candidate updateMemoryCache would find for an id: the first match in
map iteration order. -/
def bankFind (bank : Bank) (id : String) : Option SelectorCandidate :=
  match bank with
  | [] => none
  | (_, cs) :: rest =>
      match cs.find? (fun c => c.id == id) with
      | some c => some c
      | none => bankFind rest id

/-- SelectorBank.promoteSelector: record the interaction in the store, then
update the in-memory cache. The candidate row itself is not saved here. -/
def promoteSelector (s : SysState) (id : String) (rt : ℚ) (now : ℕ) : SysState :=
  { bank := bankUpdate id (promoteStep now rt) s.bank
    store := recordInteraction s.store id .success rt now }

/-- SelectorBank.degradeSelector: record the interaction, update the cache,
and if the mutated candidate crosses the retirement threshold, persist it. -/
def degradeSelector (s : SysState) (id : String) (now : ℕ) : SysState :=
  let store1 := recordInteraction s.store id .failure 0 now
  let store2 :=
    match bankFind s.bank id with
    | some c =>
        if max 0 (c.confidence - 10) < 10 ∧ 5 < c.failureCount + 1 then
          saveSelector store1 (degradeStep now c)
        else store1
    | none => store1
  { bank := bankUpdate id (degradeStep now) s.bank
    store := store2 }

/-- SelectorBank.addCandidate: build the candidate, push it onto the array
for its elementType, and save it to the store immediately. -/
def addCandidate (s : SysState) (elementType : String) (strategy : SelectorStrategy)
    (value : String) (q : UIContext) (confidence : ℚ) (id : String) (now : ℕ) : SysState :=
  let c := mkCandidate elementType strategy value q confidence id now
  { bank := mapSet s.bank elementType (mapGet s.bank elementType ++ [c])
    store := saveSelector s.store c }

/-- One mutating call on the Bank. The id of an add op models the external
random draw; now models new Date at call time. -/
inductive BankOp where
  | add (elementType : String) (strategy : SelectorStrategy) (value : String)
      (q : UIContext) (confidence : ℚ) (id : String) (now : ℕ)
  | promote (id : String) (rt : ℚ) (now : ℕ)
  | degrade (id : String) (now : ℕ)

/-- Run one Bank operation. -/
def runOp (s : SysState) : BankOp → SysState
  | .add et strat v q conf id now => addCandidate s et strat v q conf id now
  | .promote id rt now => promoteSelector s id rt now
  | .degrade id now => degradeSelector s id now

/-- Run a sequence of Bank operations. -/
def runOps (s : SysState) (ops : List BankOp) : SysState :=
  ops.foldl runOp s

/-- SelectorResolver.normalizeSelector: strategy-dependent normalization of
the raw selector value. -/
def normalizeSelector (c : SelectorCandidate) : String :=
  match c.selectorStrategy with
  | .text => "text=\"" ++ c.selectorValue ++ "\""
  | .cls => if c.selectorValue.startsWith (".") then c.selectorValue else "." ++ c.selectorValue
  | .ident => if c.selectorValue.startsWith ("#") then c.selectorValue else "#" ++ c.selectorValue
  | _ => c.selectorValue

/-- Loop body of SelectorResolver.resolveElement. The page argument tells
whether waitForSelector succeeds for a normalized expression (false covers
both no-match and timeout, which raise and are caught identically); dur
gives the wall-clock cost of each probe; start is Date.now at loop entry;
elapsed accumulates time spent so far. On success the candidate is promoted
with the elapsed time since loop start; on failure it is degraded and the
loop continues. -/
def resolveElementGo (page : String → Bool) (dur : SelectorCandidate → ℕ) (start : ℕ) :
    SysState → ℕ → List SelectorCandidate → SysState × Option SelectorCandidate
  | s, _, [] => (s, none)
  | s, elapsed, c :: cs =>
      let e := elapsed + dur c
      if page (normalizeSelector c) then
        (promoteSelector s c.id (e : ℚ) (start + e), some c)
      else
        resolveElementGo page dur start (degradeSelector s c.id (start + e)) e cs

/-- SelectorResolver.resolveElement: rank candidates, return null on an empty
list, otherwise iterate in rank order. The returned candidate stands for the
located element handle. -/
def resolveElement (page : String → Bool) (dur : SelectorCandidate → ℕ) (start : ℕ)
    (s : SysState) (elementType : String) (q : UIContext) : SysState × Option SelectorCandidate :=
  let candidates := getCandidates s.bank elementType q
  if candidates.isEmpty then (s, none)
  else resolveElementGo page dur start s 0 candidates

/-- Loop of SelectorResolver.resolveElements. The pageAll argument models
page.$$ returning the list of handles for a normalized expression. A
candidate with no matches is skipped with no state change; the first
candidate with one or more matches is promoted with responseTime 0. -/
def resolveElementsGo (pageAll : String → List ℕ) (now : ℕ) :
    SysState → List SelectorCandidate → SysState × List ℕ
  | s, [] => (s, [])
  | s, c :: cs =>
      let els := pageAll (normalizeSelector c)
      if 0 < els.length then (promoteSelector s c.id 0 now, els)
      else resolveElementsGo pageAll now s cs

/-- SelectorResolver.resolveElements. -/
def resolveElements (pageAll : String → List ℕ) (now : ℕ) (s : SysState)
    (elementType : String) (q : UIContext) : SysState × List ℕ :=
  resolveElementsGo pageAll now s (getCandidates s.bank elementType q)

/-- All candidate ids currently in the in-memory bank, in iteration order. -/
def bankIds (bank : Bank) : List String :=
  (bank.map (fun kv => kv.snd.map (fun c => c.id))).flatten

/-- States that fold the degradeSelector calls made for a failed prefix of
candidates during resolveElement, together with the accumulated elapsed time. -/
def degradeFold (dur : SelectorCandidate → ℕ) (start : ℕ) :
    SysState → ℕ → List SelectorCandidate → SysState × ℕ
  | s, elapsed, [] => (s, elapsed)
  | s, elapsed, c :: cs =>
      degradeFold dur start (degradeSelector s c.id (start + (elapsed + dur c))) (elapsed + dur c) cs

/-- Desktop query context used by the seeder, for concrete instances. -/
def ctxD : UIContext :=
  { pageUrl := "p", collapsed := false, tier := "member", mobile := false }

/-- Mobile variant of the query context. -/
def ctxM : UIContext :=
  { ctxD with mobile := true }

/-- A fresh system: empty bank, empty store. -/
def emptyState : SysState :=
  { bank := [], store := { selectors := [], history := [] } }

/-- A mobile-scoped candidate, for the isolation instance. -/
def cMob : SelectorCandidate :=
  mkCandidate ("t") SelectorStrategy.css ("m") ctxM 70 ("m1") 0

/-- A bank holding only the mobile-scoped candidate. -/
def bankW : Bank :=
  [(("t"), [cMob])]

/-- State created by one addCandidate call with confidence argument 150. -/
def sBad : SysState :=
  runOp emptyState (BankOp.add ("t") SelectorStrategy.css ("v") ctxD 150 ("idA") 0)

/-- Candidate at confidence 15 with five recorded failures. -/
def cC3 : SelectorCandidate :=
  { mkCandidate ("t") SelectorStrategy.css ("v") ctxD 15 ("a") 0 with failureCount := 5 }

/-- System holding cC3 in memory and in the store. -/
def sC3 : SysState :=
  { bank := [(("t"), [cC3])], store := { selectors := [cC3], history := [] } }

/-- Candidate at confidence 5 with five recorded failures. -/
def cC4 : SelectorCandidate :=
  { mkCandidate ("t") SelectorStrategy.css ("v") ctxD 5 ("a") 0 with failureCount := 5 }

/-- System holding cC4. -/
def sC4 : SysState :=
  { bank := [(("t"), [cC4])], store := { selectors := [cC4], history := [] } }

/-- One degradeSelector call on cC4: crosses the retirement threshold. -/
def sC4a : SysState :=
  degradeSelector sC4 ("a") 1

/-- A second degradeSelector call, aimed at the now retired candidate. -/
def sC4b : SysState :=
  degradeSelector sC4a ("a") 2

/-- Desktop candidate at confidence 90 whose expression is selA. -/
def cA : SelectorCandidate :=
  mkCandidate ("x") SelectorStrategy.css ("selA") ctxD 90 ("a") 0

/-- Desktop candidate at confidence 50 whose expression is selB. -/
def cB : SelectorCandidate :=
  mkCandidate ("x") SelectorStrategy.css ("selB") ctxD 50 ("b") 0

/-- System seeded with the confidence-90 and confidence-50 candidates. -/
def sAB : SysState :=
  { bank := [(("x"), [cA, cB])], store := { selectors := [cA, cB], history := [] } }

/-- A page on which only the expression selB matches. -/
def pageB : String → Bool :=
  fun str => str == "selB"

/-- Probe duration: every attempt takes one time unit. -/
def durOne : SelectorCandidate → ℕ :=
  fun _ => 1

/-- State created by addCandidate at confidence 50 with id a. -/
def sC7 : SysState :=
  addCandidate emptyState ("t") SelectorStrategy.css ("v") ctxD 50 ("a") 0

/-- One promoteSelector call on sC7 with response time 100. -/
def sC7p : SysState :=
  promoteSelector sC7 ("a") 100 1

/-- A page on which no expression yields any match for plural queries. -/
def pageNone : String → List ℕ :=
  fun _ => []

/-- A page on which the expression selB yields one plural match. -/
def pageAllB : String → List ℕ :=
  fun str => if str == "selB" then [7] else []

/-- Two addCandidate calls whose random draws collide on the string dup. -/
def sDup : SysState :=
  runOps emptyState
    [BankOp.add ("t") SelectorStrategy.css ("v1") ctxD 50 ("dup") 0,
     BankOp.add ("t") SelectorStrategy.css ("v2") ctxD 60 ("dup") 1]

/-- A property holding of every candidate stored anywhere in the bank. -/
def BankAll (P : SelectorCandidate → Prop) (bank : Bank) : Prop :=
  ∀ kv ∈ bank, ∀ c ∈ kv.snd, P c

/-- All confidences currently in the bank lie in the interval zero to hundred. -/
def ConfInRange (s : SysState) : Prop :=
  BankAll (fun c => 0 ≤ c.confidence ∧ c.confidence ≤ 100) s.bank

/-- Side condition on one operation: only an add constrains the caller, its
confidence argument must already lie in the interval (the code never clamps it). -/
def opConfOK : BankOp → Prop
  | .add _ _ _ _ conf _ _ => 0 ≤ conf ∧ conf ≤ 100
  | _ => True

/-- Operations other than add: a promote or degrade call. -/
def isInteraction : BankOp → Prop
  | .add _ _ _ _ _ _ _ => False
  | _ => True

/-- The id drawn by an operation, when it is an add. -/
def opAddIds : BankOp → List String
  | .add _ _ _ _ _ id _ => [id]
  | _ => []

/-- All ids drawn by the add operations of a run, in order. -/
def opsAddIds (ops : List BankOp) : List String :=
  (ops.map opAddIds).flatten

/-- Whether the durable selectors table holds a row for the id. The driver
better-sqlite3 enforces the foreign key declared on
selector_history.selector_id by default, so the history INSERT of
recordInteraction succeeds exactly when such a row exists. -/
def historyInsertOk (st : StoreState) (id : String) : Bool :=
  st.selectors.any (fun r => r.id == id)

/-- SelectorPersistence.recordInteraction with its error path: when no
selectors row carries the id, the history INSERT violates the enforced
foreign key and the call throws; otherwise it behaves as recordInteraction. -/
def recordInteractionE (st : StoreState) (id : String) (action : InteractionAction)
    (rt : ℚ) (now : ℕ) : Except String StoreState :=
  if historyInsertOk st id then Except.ok (recordInteraction st id action rt now)
  else Except.error ("FOREIGN KEY constraint failed")

/-- SelectorBank.promoteSelector with its error path: recordInteraction runs
before updateMemoryCache, so when the insert throws the call throws and
nothing at all is written; otherwise the call is promoteSelector. -/
def promoteSelectorE (s : SysState) (id : String) (rt : ℚ) (now : ℕ) :
    Except String SysState :=
  match recordInteractionE s.store id InteractionAction.success rt now with
  | Except.ok _ => Except.ok (promoteSelector s id rt now)
  | Except.error e => Except.error e

/-- SelectorBank.degradeSelector with its error path, as for promoteSelectorE. -/
def degradeSelectorE (s : SysState) (id : String) (now : ℕ) :
    Except String SysState :=
  match recordInteractionE s.store id InteractionAction.failure 0 now with
  | Except.ok _ => Except.ok (degradeSelector s id now)
  | Except.error e => Except.error e

/-- A system whose store holds a durable row for id r1 that is not loaded in
memory - the situation loadAllSelectors produces for a retired candidate
after a restart. -/
def sRet : SysState :=
  { bank := []
    store :=
      { selectors :=
          [{ mkCandidate ("t") SelectorStrategy.css ("v") ctxD 20 ("r1") 0 with
              retiredAt := some 1 }]
        history := [] } }

/-- Ranking: getCandidates is a permutation of the filtered candidate array. -/
lemma getCandidates_perm (bank : Bank) (et : String) (q : UIContext) :
    List.Perm (getCandidates bank et q) ((mapGet bank et).filter (contextMatch q)) :=
  List.perm_insertionSort confGe _

/-- ContextMatch unfolded into propositional form. -/
lemma contextMatch_iff (q : UIContext) (c : SelectorCandidate) :
    contextMatch q c = true ↔ (c.uiContext.mobile = q.mobile ∧ c.retiredAt = none) := by
  simp [contextMatch]

/-- Membership in getCandidates output. -/
lemma mem_getCandidates (bank : Bank) (et : String) (q : UIContext) (c : SelectorCandidate) :
    c ∈ getCandidates bank et q ↔
      (c ∈ mapGet bank et ∧ c.uiContext.mobile = q.mobile ∧ c.retiredAt = none) := by
  rw [(getCandidates_perm bank et q).mem_iff, List.mem_filter, contextMatch_iff]

/-- Stability at the level of one ordered insertion: filtering the insertion
result to one confidence value either prepends the inserted element (it goes
before every strictly lower confidence, after every strictly higher one) or
leaves the filtered list unchanged. -/
lemma filter_orderedInsert_conf (k : ℚ) (a : SelectorCandidate) :
    ∀ l : List SelectorCandidate,
      (List.orderedInsert confGe a l).filter (fun c => decide (c.confidence = k))
        = if a.confidence = k
          then a :: l.filter (fun c => decide (c.confidence = k))
          else l.filter (fun c => decide (c.confidence = k))
  | [] => by
      by_cases hak : a.confidence = k <;> simp [List.orderedInsert, hak]
  | b :: t => by
      rw [List.orderedInsert]
      by_cases hab : confGe a b
      · rw [if_pos hab]
        by_cases hak : a.confidence = k <;> simp [List.filter_cons, hak]
      · rw [if_neg hab]
        by_cases hak : a.confidence = k
        · have hbk : ¬ b.confidence = k := by
            intro hbk
            exact hab (le_of_eq (hbk.trans hak.symm))
          simp [List.filter_cons, hbk, filter_orderedInsert_conf k a t, hak]
        · by_cases hbk : b.confidence = k <;>
            simp [List.filter_cons, hbk, filter_orderedInsert_conf k a t, hak]

/-- Stability of the ranking sort: restricted to any one confidence value,
the sorted list keeps exactly the original (insertion) order. -/
lemma filter_insertionSort_conf (k : ℚ) :
    ∀ l : List SelectorCandidate,
      (List.insertionSort confGe l).filter (fun c => decide (c.confidence = k))
        = l.filter (fun c => decide (c.confidence = k))
  | [] => rfl
  | a :: t => by
      rw [List.insertionSort, filter_orderedInsert_conf, filter_insertionSort_conf k t]
      by_cases hak : a.confidence = k <;> simp [List.filter_cons, hak]

/-- C1: getCandidates returns exactly the stored candidates of the element
type whose mobile flag matches the query and whose retiredAt is null
(as a permutation and as a membership test), sorted by confidence descending;
ties keep insertion order (filtering to any one confidence value yields the
original filtered order); the result of two calls without intervening
mutation is identical; and a mobile-scoped candidate is never returned for
a desktop query. -/
theorem getCandidates_spec (bank : Bank) (et : String) (q : UIContext) :
    List.Perm (getCandidates bank et q) ((mapGet bank et).filter (contextMatch q))
  ∧ (∀ c, c ∈ getCandidates bank et q ↔
      (c ∈ mapGet bank et ∧ c.uiContext.mobile = q.mobile ∧ c.retiredAt = none))
  ∧ List.Sorted confGe (getCandidates bank et q)
  ∧ (∀ k : ℚ, (getCandidates bank et q).filter (fun c => decide (c.confidence = k))
      = ((mapGet bank et).filter (contextMatch q)).filter (fun c => decide (c.confidence = k)))
  ∧ getCandidates bank et q = getCandidates bank et q
  ∧ (∀ c, c.uiContext.mobile = true → q.mobile = false → c ∉ getCandidates bank et q) := by
  refine ⟨getCandidates_perm bank et q, mem_getCandidates bank et q,
    List.sorted_insertionSort confGe _, fun k => filter_insertionSort_conf k _, rfl, ?_⟩
  intro c hm hq hmem
  have h := ((mem_getCandidates bank et q c).mp hmem).2.1
  rw [hm, hq] at h
  exact Bool.true_eq_false.mp h

/-- Witness for C1: the mobile-scoped candidate cMob is not returned for the
desktop context, in a bank where it is the only (and highest-confidence)
candidate of its element type. -/
theorem getCandidates_spec_witness : cMob ∉ getCandidates bankW ("t") ctxD :=
  (getCandidates_spec bankW ("t") ctxD).2.2.2.2.2 cMob rfl rfl

/-- PromoteStep keeps the candidate id. -/
lemma promoteStep_id (now : ℕ) (rt : ℚ) (c : SelectorCandidate) :
    (promoteStep now rt c).id = c.id := rfl

/-- DegradeStep keeps the candidate id. -/
lemma degradeStep_id (now : ℕ) (c : SelectorCandidate) :
    (degradeStep now c).id = c.id := by
  unfold degradeStep
  split <;> rfl

/-- DegradeStep keeps a non-null retiredAt non-null. -/
lemma degradeStep_retired (now : ℕ) (c : SelectorCandidate) (h : c.retiredAt ≠ none) :
    (degradeStep now c).retiredAt ≠ none := by
  unfold degradeStep
  split
  · simp
  · exact h

/-- PromoteStep does not change retiredAt. -/
lemma promoteStep_retiredAt (now : ℕ) (rt : ℚ) (c : SelectorCandidate) :
    (promoteStep now rt c).retiredAt = c.retiredAt := rfl

/-- UpdateFirst does nothing when nothing satisfies the test. -/
lemma updateFirst_of_forall_not (p : SelectorCandidate → Bool)
    (f : SelectorCandidate → SelectorCandidate) :
    ∀ cs : List SelectorCandidate, (∀ c ∈ cs, p c = false) → updateFirst p f cs = cs
  | [], _ => rfl
  | c :: cs, h => by
      have hc : p c = false := h c (List.mem_cons_self c cs)
      simp [updateFirst, hc,
        updateFirst_of_forall_not p f cs (fun d hd => h d (List.mem_cons_of_mem c hd))]

/-- UpdateFirst preserves the list of ids when f preserves ids. -/
lemma map_id_updateFirst (p : SelectorCandidate → Bool)
    (f : SelectorCandidate → SelectorCandidate) (hf : ∀ x, (f x).id = x.id) :
    ∀ cs : List SelectorCandidate,
      (updateFirst p f cs).map (fun c => c.id) = cs.map (fun c => c.id)
  | [] => rfl
  | c :: cs => by
      rw [updateFirst]
      split
      · simp [hf]
      · simp [map_id_updateFirst p f hf cs]

/-- Finding the updated id after updateFirst: the first hit is mapped by f. -/
lemma find?_updateFirst_self (id : String) (f : SelectorCandidate → SelectorCandidate)
    (hf : ∀ x, (f x).id = x.id) :
    ∀ cs : List SelectorCandidate,
      (updateFirst (fun c => c.id == id) f cs).find? (fun c => c.id == id)
        = (cs.find? (fun c => c.id == id)).map f
  | [] => rfl
  | c :: cs => by
      rw [updateFirst]
      by_cases h : c.id == id
      · rw [if_pos h]
        have hfc : (f c).id == id := by rw [hf c]; exact h
        simp [List.find?, h, hfc]
      · rw [if_neg h]
        simp only [List.find?, h]
        exact find?_updateFirst_self id f hf cs

/-- Finding a different id is unaffected by updateFirst on this id. -/
lemma find?_updateFirst_other (id id2 : String) (hne : id2 ≠ id)
    (f : SelectorCandidate → SelectorCandidate) (hf : ∀ x, (f x).id = x.id) :
    ∀ cs : List SelectorCandidate,
      (updateFirst (fun c => c.id == id) f cs).find? (fun c => c.id == id2)
        = cs.find? (fun c => c.id == id2)
  | [] => rfl
  | c :: cs => by
      rw [updateFirst]
      by_cases h : c.id == id
      · rw [if_pos h]
        have hc2 : (c.id == id2) = false := by
          simp only [beq_eq_false_iff_ne, ne_eq]
          intro hh
          exact hne (hh ▸ (beq_iff_eq.mp h))
        have hfc2 : ((f c).id == id2) = false := by rw [hf c]; exact hc2
        simp [List.find?, hc2, hfc2]
      · rw [if_neg h]
        simp only [List.find?]
        by_cases h2 : c.id == id2
        · simp [h2]
        · simp only [h2, Bool.false_eq_true, if_false]
          exact find?_updateFirst_other id id2 hne f hf cs

/-- BankHas after updateFirst with an id-preserving function. -/
lemma bankHas_updateFirst (p : SelectorCandidate → Bool)
    (f : SelectorCandidate → SelectorCandidate) (hf : ∀ x, (f x).id = x.id) :
    ∀ (cs : List SelectorCandidate) (id : String),
      bankHas (updateFirst p f cs) id = bankHas cs id
  | [], _ => rfl
  | c :: cs, id => by
      rw [updateFirst]
      by_cases h : p c
      · rw [if_pos h]
        simp [bankHas, List.any_cons, hf]
      · rw [if_neg h]
        simp only [bankHas, List.any_cons]
        have := bankHas_updateFirst p f hf cs id
        rw [bankHas] at this
        rw [bankHas] at this
        rw [this]

/-- A list whose find? fails has no element with the id. -/
lemma bankHas_false_of_find_none (cs : List SelectorCandidate) (id : String)
    (hfind : cs.find? (fun c => c.id == id) = none) : bankHas cs id = false := by
  unfold bankHas
  rw [List.any_eq_false]
  intro x hx
  simpa using List.find?_eq_none.mp hfind x hx

/-- When the id is found nowhere, bankUpdate is the identity. -/
lemma bankUpdate_of_find_none (id : String) (f : SelectorCandidate → SelectorCandidate) :
    ∀ bank : Bank, bankFind bank id = none → bankUpdate id f bank = bank
  | [], _ => rfl
  | (k, cs) :: rest, h => by
      rw [bankFind] at h
      rcases hfind : cs.find? (fun c => c.id == id) with _ | c
      · rw [hfind] at h
        have h2 : bankFind rest id = none := h
        rw [bankUpdate, bankHas_false_of_find_none cs id hfind]
        simp only [Bool.false_eq_true, if_false]
        rw [bankUpdate_of_find_none id f rest h2]
      · rw [hfind] at h
        exact absurd h (by simp)

/-- A false bankHas means find? fails. -/
lemma find_none_of_bankHas_false (cs : List SelectorCandidate) (id : String)
    (h : bankHas cs id = false) : cs.find? (fun c => c.id == id) = none := by
  rw [List.find?_eq_none]
  intro x hx
  unfold bankHas at h
  simpa using List.any_eq_false.mp h x hx

/-- BankFind of the updated id after bankUpdate maps the found candidate. -/
lemma bankFind_bankUpdate_self (id : String) (f : SelectorCandidate → SelectorCandidate)
    (hf : ∀ x, (f x).id = x.id) :
    ∀ bank : Bank, bankFind (bankUpdate id f bank) id = (bankFind bank id).map f
  | [] => rfl
  | (k, cs) :: rest => by
      rw [bankUpdate]
      by_cases h : bankHas cs id
      · rw [if_pos h]
        rw [bankFind, find?_updateFirst_self id f hf cs]
        rcases hfind : cs.find? (fun c => c.id == id) with _ | c
        · exact absurd (bankHas_false_of_find_none cs id hfind) (by simp [h])
        · simp [bankFind, hfind]
      · rw [if_neg h]
        have hfind := find_none_of_bankHas_false cs id (by simpa using h)
        rw [bankFind, bankFind, hfind]
        exact bankFind_bankUpdate_self id f hf rest

/-- BankFind of any other id is unchanged by bankUpdate. -/
lemma bankFind_bankUpdate_other (id id2 : String) (hne : id2 ≠ id)
    (f : SelectorCandidate → SelectorCandidate) (hf : ∀ x, (f x).id = x.id) :
    ∀ bank : Bank, bankFind (bankUpdate id f bank) id2 = bankFind bank id2
  | [] => rfl
  | (k, cs) :: rest => by
      rw [bankUpdate]
      by_cases h : bankHas cs id
      · rw [if_pos h]
        rw [bankFind, find?_updateFirst_other id id2 hne f hf cs, bankFind]
      · rw [if_neg h]
        rw [bankFind, bankFind]
        rcases hfind2 : cs.find? (fun c => c.id == id2) with _ | c
        · rw [hfind2]
          exact bankFind_bankUpdate_other id id2 hne f hf rest
        · rw [hfind2]

/-- BankFind after promoteSelector, for the promoted id. -/
lemma bankFind_promoteSelector (s : SysState) (id : String) (rt : ℚ) (now : ℕ) :
    bankFind (promoteSelector s id rt now).bank id
      = (bankFind s.bank id).map (promoteStep now rt) :=
  bankFind_bankUpdate_self id (promoteStep now rt) (fun _ => rfl) s.bank

/-- BankFind after degradeSelector, for the degraded id. -/
lemma bankFind_degradeSelector (s : SysState) (id : String) (now : ℕ) :
    bankFind (degradeSelector s id now).bank id
      = (bankFind s.bank id).map (degradeStep now) :=
  bankFind_bankUpdate_self id _ (degradeStep_id now) s.bank

/-- Counterexample to C10 as stated: better-sqlite3 enforces the foreign key
declared on selector_history.selector_id by default, so with an id absent
from the durable selectors table (here the empty store and the unseen id z)
the history INSERT throws FOREIGN KEY constraint failed - the call errors out
before updateMemoryCache and no interaction record is appended, contradicting
the claim that the call throws no error yet still appends the record. -/
theorem unknown_id_throws_counterexample :
    promoteSelectorE emptyState ("z") 1 2 = Except.error ("FOREIGN KEY constraint failed")
  ∧ degradeSelectorE emptyState ("z") 2 = Except.error ("FOREIGN KEY constraint failed") :=
  ⟨rfl, rfl⟩

/-- C10 amended: a promoteSelector or degradeSelector call with an id matching
no candidate in the in-memory bank never mutates any in-memory candidate
(updateMemoryCache finds nothing). When the id still has a row in the durable
selectors table - as for a retired candidate, which loadAllSelectors leaves
out of memory - the call throws no error and appends the interaction record
for that id to the durable history. When the id is absent from the selectors
table as well, the history INSERT violates the foreign key that better-sqlite3
enforces by default, so the call throws and appends nothing. -/
theorem unknown_id_interaction (s : SysState) (id : String) (rt : ℚ) (now : ℕ)
    (h : bankFind s.bank id = none) :
    (historyInsertOk s.store id = true →
      promoteSelectorE s id rt now = Except.ok (promoteSelector s id rt now)
      ∧ (promoteSelector s id rt now).bank = s.bank
      ∧ (promoteSelector s id rt now).store.history
          = s.store.history ++ [⟨id, now, InteractionAction.success, rt, none⟩]
      ∧ degradeSelectorE s id now = Except.ok (degradeSelector s id now)
      ∧ (degradeSelector s id now).bank = s.bank
      ∧ (degradeSelector s id now).store.history
          = s.store.history ++ [⟨id, now, InteractionAction.failure, 0, none⟩])
  ∧ (historyInsertOk s.store id = false →
      promoteSelectorE s id rt now = Except.error ("FOREIGN KEY constraint failed")
      ∧ degradeSelectorE s id now = Except.error ("FOREIGN KEY constraint failed")) := by
  constructor
  · intro hok
    refine ⟨?_, bankUpdate_of_find_none id _ s.bank h, rfl,
      ?_, bankUpdate_of_find_none id _ s.bank h, ?_⟩
    · simp only [promoteSelectorE, recordInteractionE, hok, if_true]
    · simp only [degradeSelectorE, recordInteractionE, hok, if_true]
    · simp only [degradeSelector, h]
      rfl
  · intro hfail
    constructor
    · simp only [promoteSelectorE, recordInteractionE, hfail, Bool.false_eq_true, if_false]
    · simp only [degradeSelectorE, recordInteractionE, hfail, Bool.false_eq_true, if_false]

/-- Witness for the amended C10: the id r1 has a durable row but no in-memory
candidate; both interaction calls succeed, leave the (empty) bank unchanged
and append exactly one history row each. -/
theorem unknown_id_interaction_witness :
    promoteSelectorE sRet ("r1") 1 2 = Except.ok (promoteSelector sRet ("r1") 1 2)
  ∧ (promoteSelector sRet ("r1") 1 2).bank = sRet.bank
  ∧ (promoteSelector sRet ("r1") 1 2).store.history
      = sRet.store.history ++ [⟨("r1"), 2, InteractionAction.success, 1, none⟩]
  ∧ degradeSelectorE sRet ("r1") 2 = Except.ok (degradeSelector sRet ("r1") 2)
  ∧ (degradeSelector sRet ("r1") 2).bank = sRet.bank
  ∧ (degradeSelector sRet ("r1") 2).store.history
      = sRet.store.history ++ [⟨("r1"), 2, InteractionAction.failure, 0, none⟩] :=
  (unknown_id_interaction sRet ("r1") 1 2 rfl).1 rfl

/-- UpdateFirst preserves a pointwise property closed under f. -/
lemma forall_mem_updateFirst (P : SelectorCandidate → Prop)
    (p : SelectorCandidate → Bool) (f : SelectorCandidate → SelectorCandidate)
    (hPf : ∀ c, P c → P (f c)) :
    ∀ cs : List SelectorCandidate, (∀ c ∈ cs, P c) → ∀ x ∈ updateFirst p f cs, P x
  | [], _, x, hx => absurd hx (List.not_mem_nil x)
  | c :: cs, h, x, hx => by
      rw [updateFirst] at hx
      by_cases hp : p c
      · rw [if_pos hp] at hx
        rcases List.mem_cons.mp hx with h1 | h1
        · exact h1 ▸ hPf c (h c (List.mem_cons_self c cs))
        · exact h x (List.mem_cons_of_mem c h1)
      · rw [if_neg hp] at hx
        rcases List.mem_cons.mp hx with h1 | h1
        · exact h1 ▸ h c (List.mem_cons_self c cs)
        · exact forall_mem_updateFirst P p f hPf cs
            (fun d hd => h d (List.mem_cons_of_mem c hd)) x h1

/-- BankUpdate preserves a pointwise property closed under f. -/
lemma BankAll_bankUpdate (P : SelectorCandidate → Prop) (id : String)
    (f : SelectorCandidate → SelectorCandidate) (hPf : ∀ c, P c → P (f c)) :
    ∀ bank : Bank, BankAll P bank → BankAll P (bankUpdate id f bank)
  | [], h => h
  | (k, cs) :: rest, h => by
      rw [bankUpdate]
      by_cases hh : bankHas cs id
      · rw [if_pos hh]
        intro kv hkv x hx
        rcases List.mem_cons.mp hkv with h1 | h1
        · have hbase : ∀ c ∈ cs, P c := fun c hc => h (k, cs) (List.mem_cons_self _ _) c hc
          refine forall_mem_updateFirst P (fun c => c.id == id) f hPf cs hbase x ?_
          rw [h1] at hx
          exact hx
        · exact h kv (List.mem_cons_of_mem _ h1) x hx
      · rw [if_neg hh]
        intro kv hkv x hx
        rcases List.mem_cons.mp hkv with h1 | h1
        · exact h kv (h1 ▸ List.mem_cons_self _ _) x hx
        · exact BankAll_bankUpdate P id f hPf rest
            (fun kv2 hkv2 => h kv2 (List.mem_cons_of_mem _ hkv2)) kv h1 x hx

/-- MapSet preserves a pointwise property when the new value satisfies it. -/
lemma BankAll_mapSet (P : SelectorCandidate → Prop) :
    ∀ (m : Bank) (k : String) (v : List SelectorCandidate),
      BankAll P m → (∀ c ∈ v, P c) → BankAll P (mapSet m k v)
  | [], k, v, _, hv => by
      intro kv hkv x hx
      rw [mapSet] at hkv
      rcases List.mem_singleton.mp hkv with rfl
      exact hv x hx
  | kv0 :: rest, k, v, hm, hv => by
      rw [mapSet]
      by_cases h : kv0.fst == k
      · rw [if_pos h]
        intro kv hkv x hx
        rcases List.mem_cons.mp hkv with h1 | h1
        · refine hv x ?_
          rw [h1] at hx
          exact hx
        · exact hm kv (List.mem_cons_of_mem _ h1) x hx
      · rw [if_neg h]
        intro kv hkv x hx
        rcases List.mem_cons.mp hkv with h1 | h1
        · exact hm kv (h1 ▸ List.mem_cons_self _ _) x hx
        · exact BankAll_mapSet P rest k v
            (fun a ha => hm a (List.mem_cons_of_mem _ ha)) hv kv h1 x hx

/-- Everything mapGet returns is stored in the bank. -/
lemma BankAll_mapGet (P : SelectorCandidate → Prop) (m : Bank) (k : String)
    (h : BankAll P m) : ∀ c ∈ mapGet m k, P c := by
  intro c hc
  rw [mapGet] at hc
  rcases hfind : m.find? (fun kv => kv.fst == k) with _ | kv
  · rw [hfind] at hc
    exact absurd hc (List.not_mem_nil c)
  · rw [hfind] at hc
    exact h kv (List.mem_of_find?_eq_some hfind) c hc

/-- Promotion keeps confidence inside the unit-to-hundred band. -/
lemma promoteStep_conf_range (now : ℕ) (rt : ℚ) (c : SelectorCandidate)
    (h : 0 ≤ c.confidence ∧ c.confidence ≤ 100) :
    0 ≤ (promoteStep now rt c).confidence ∧ (promoteStep now rt c).confidence ≤ 100 := by
  constructor
  · exact le_min (by norm_num) (by linarith [h.1])
  · exact min_le_left _ _

/-- Degradation keeps confidence inside the band. -/
lemma degradeStep_conf_range (now : ℕ) (c : SelectorCandidate)
    (h : 0 ≤ c.confidence ∧ c.confidence ≤ 100) :
    0 ≤ (degradeStep now c).confidence ∧ (degradeStep now c).confidence ≤ 100 := by
  have hc : (degradeStep now c).confidence = max 0 (c.confidence - 10) := by
    unfold degradeStep
    split <;> rfl
  rw [hc]
  exact ⟨le_max_left _ _, max_le (by norm_num) (by linarith [h.2])⟩

/-- Counterexample to C2 as stated: addCandidate performs no clamping, so one
add call with confidence argument 150 places a candidate with confidence 150,
outside the interval, into the bank (and into the store). -/
theorem confidence_range_counterexample :
    (bankFind sBad.bank ("idA")).map (fun c => c.confidence) = some 150
  ∧ (sBad.store.selectors.map (fun c => c.confidence)) = [150]
  ∧ ¬ ((150 : ℚ) ≤ 100) := by
  refine ⟨rfl, rfl, by norm_num⟩

/-- C2 amended: provided every addCandidate call supplies a confidence
argument in the interval zero to hundred (the default 50 and every seeder
value do), every candidate in the bank has confidence in that interval after
any sequence of add, promote and degrade operations in any order: promotion
clamps at 100 and degradation clamps at 0. -/
theorem confidence_range_preserved (s : SysState) (ops : List BankOp)
    (h : ConfInRange s) (hops : ∀ op ∈ ops, opConfOK op) :
    ConfInRange (runOps s ops) := by
  induction ops generalizing s with
  | nil => exact h
  | cons op rest ih =>
      refine ih (runOp s op) ?_ (fun op2 h2 => hops op2 (List.mem_cons_of_mem _ h2))
      rcases op with ⟨et, strat, v, q, conf, id, now⟩ | ⟨id, rt, now⟩ | ⟨id, now⟩
      · have hconf : 0 ≤ conf ∧ conf ≤ 100 := hops _ (List.mem_cons_self _ _)
        refine BankAll_mapSet _ s.bank et _ h ?_
        intro c hc
        rcases List.mem_append.mp hc with h1 | h1
        · exact BankAll_mapGet _ s.bank et h c h1
        · rcases List.mem_singleton.mp h1 with rfl
          exact hconf
      · exact BankAll_bankUpdate _ id _ (promoteStep_conf_range now rt) s.bank h
      · exact BankAll_bankUpdate _ id _ (degradeStep_conf_range now) s.bank h

/-- Witness for the amended C2: a seed at confidence 50 followed by a promote
and a degrade keeps every stored confidence within the interval. -/
theorem confidence_range_preserved_witness :
    ConfInRange (runOps emptyState
      [BankOp.add ("t") SelectorStrategy.css ("v") ctxD 50 ("a") 0,
       BankOp.promote ("a") 3 1,
       BankOp.degrade ("a") 2]) := by
  refine confidence_range_preserved emptyState _ ?_ ?_
  · intro kv hkv
    exact absurd hkv (List.not_mem_nil kv)
  · intro op hop
    rcases List.mem_cons.mp hop with rfl | hop
    · exact ⟨by norm_num, by norm_num⟩
    rcases List.mem_cons.mp hop with rfl | hop
    · exact trivial
    rcases List.mem_cons.mp hop with rfl | hop
    · exact trivial
    · exact absurd hop (List.not_mem_nil op)

/-- Filtering to an id commutes with the row update keyed on that id. -/
lemma filter_map_idUpdate (id : String) (g : SelectorCandidate → SelectorCandidate)
    (hg : ∀ r, r.id = id → (g r).id = id) :
    ∀ l : List SelectorCandidate,
      (l.map (fun r => if r.id == id then g r else r)).filter (fun r => r.id == id)
        = (l.filter (fun r => r.id == id)).map g
  | [] => rfl
  | r :: t => by
      have ih := filter_map_idUpdate id g hg t
      simp only [List.map_cons]
      by_cases h : (r.id == id) = true
      · rw [if_pos h]
        have hg2 : ((g r).id == id) = true := beq_iff_eq.mpr (hg r (beq_iff_eq.mp h))
        rw [List.filter_cons, List.filter_cons, if_pos hg2, if_pos h, List.map_cons, ih]
      · rw [if_neg h]
        rw [List.filter_cons, List.filter_cons, if_neg h, if_neg h, ih]

/-- A nonempty filter forces any to succeed. -/
lemma any_true_of_filter_eq (l : List SelectorCandidate)
    (p : SelectorCandidate → Bool) (c : SelectorCandidate) (h : l.filter p = [c]) :
    l.any p = true := by
  rw [List.any_eq_true]
  have hmem : c ∈ l.filter p := by
    rw [h]
    exact List.mem_singleton.mpr rfl
  exact ⟨c, (List.mem_filter.mp hmem).1, (List.mem_filter.mp hmem).2⟩

/-- Rows matching the id after the success UPDATE of recordInteraction. -/
lemma rowsFor_recordInteraction_success (st : StoreState) (id : String) (rt : ℚ) (now : ℕ) :
    (recordInteraction st id InteractionAction.success rt now).selectors.filter (fun r => r.id == id)
      = (st.selectors.filter (fun r => r.id == id)).map (rowSuccess now rt) :=
  filter_map_idUpdate id (rowSuccess now rt) (fun _ h => h) st.selectors

/-- Rows matching the id after the failure UPDATE of recordInteraction. -/
lemma rowsFor_recordInteraction_failure (st : StoreState) (id : String) (now : ℕ) :
    (recordInteraction st id InteractionAction.failure 0 now).selectors.filter (fun r => r.id == id)
      = (st.selectors.filter (fun r => r.id == id)).map (rowFailure now) :=
  filter_map_idUpdate id (rowFailure now) (fun _ h => h) st.selectors

/-- Rows matching the id after an INSERT OR REPLACE that hits an existing row. -/
lemma filter_saveSelector_id (st : StoreState) (c : SelectorCandidate) (id : String)
    (hid : c.id = id) (hany : st.selectors.any (fun r => r.id == id) = true) :
    (saveSelector st c).selectors.filter (fun r => r.id == id)
      = (st.selectors.filter (fun r => r.id == id)).map (fun _ => c) := by
  subst hid
  rw [saveSelector, if_pos hany]
  exact filter_map_idUpdate c.id (fun _ => c) (fun _ _ => rfl) st.selectors

/-- The candidate bankFind returns carries the id searched for. -/
lemma bankFind_id : ∀ (bank : Bank) (id : String) (c : SelectorCandidate),
    bankFind bank id = some c → c.id = id
  | [], id, c, h => absurd h (by simp [bankFind])
  | (k, cs) :: rest, id, c, h => by
      rw [bankFind] at h
      rcases hfind : cs.find? (fun x => x.id == id) with _ | d
      · rw [hfind] at h
        exact bankFind_id rest id c h
      · rw [hfind] at h
        cases h
        have hp := List.find?_some hfind
        simpa using hp

/-- DegradeStep failure counter. -/
lemma degradeStep_failureCount (now : ℕ) (c : SelectorCandidate) :
    (degradeStep now c).failureCount = c.failureCount + 1 := by
  unfold degradeStep
  split <;> rfl

/-- DegradeStep failure timestamp. -/
lemma degradeStep_lastFailure (now : ℕ) (c : SelectorCandidate) :
    (degradeStep now c).lastFailure = some now := by
  unfold degradeStep
  split <;> rfl

/-- DegradeStep clamped confidence. -/
lemma degradeStep_confidence (now : ℕ) (c : SelectorCandidate) :
    (degradeStep now c).confidence = max 0 (c.confidence - 10) := by
  unfold degradeStep
  split <;> rfl

/-- For an active candidate, degradeStep retires exactly when the updated
confidence and failure count cross the thresholds. -/
lemma degradeStep_retiredAt_iff (now : ℕ) (c : SelectorCandidate) (h : c.retiredAt = none) :
    ((degradeStep now c).retiredAt = some now ↔
      (max 0 (c.confidence - 10) < 10 ∧ 5 < c.failureCount + 1)) := by
  unfold degradeStep
  split
  case isTrue hcond => exact ⟨fun _ => hcond, fun _ => rfl⟩
  case isFalse hcond =>
      constructor
      · intro hh
        have : c.retiredAt = some now := hh
        rw [h] at this
        cases this
      · intro h2
        exact absurd h2 hcond

/-- C3: degradeSelector increments failureCount, sets lastFailure to now,
clamps confidence at max 0 (confidence - 10), and retires the candidate
(retiredAt set to now and the full candidate persisted immediately to the
store) exactly when the updated confidence is below 10 and the updated
failureCount exceeds 5. A candidate at confidence 15 with failureCount 5 is
retired by a single call, ending at confidence 5 and failureCount 6; a
promotion never touches retiredAt, so a candidate sitting at confidence 5
with failureCount 5 stays unretired until a further degrade call. -/
theorem degradeSelector_spec (s : SysState) (id : String) (now : ℕ) (c : SelectorCandidate)
    (hfind : bankFind s.bank id = some c)
    (hrows : s.store.selectors.filter (fun r => r.id == id) = [c]) :
    bankFind (degradeSelector s id now).bank id = some (degradeStep now c)
  ∧ (degradeStep now c).failureCount = c.failureCount + 1
  ∧ (degradeStep now c).lastFailure = some now
  ∧ (degradeStep now c).confidence = max 0 (c.confidence - 10)
  ∧ (c.retiredAt = none →
      ((degradeStep now c).retiredAt = some now ↔
        ((degradeStep now c).confidence < 10 ∧ 5 < (degradeStep now c).failureCount)))
  ∧ (((degradeStep now c).confidence < 10 ∧ 5 < (degradeStep now c).failureCount) →
      (degradeSelector s id now).store.selectors.filter (fun r => r.id == id)
        = [degradeStep now c])
  ∧ (c.confidence = 15 ∧ c.failureCount = 5 →
      (degradeStep now c).retiredAt = some now
      ∧ (degradeStep now c).confidence = 5
      ∧ (degradeStep now c).failureCount = 6)
  ∧ (∀ (now2 : ℕ) (rt : ℚ), (promoteStep now2 rt c).retiredAt = c.retiredAt) := by
  have hcid : c.id = id := bankFind_id s.bank id c hfind
  refine ⟨?_, degradeStep_failureCount now c, degradeStep_lastFailure now c,
    degradeStep_confidence now c, ?_, ?_, ?_, fun _ _ => rfl⟩
  · rw [bankFind_degradeSelector, hfind]
    rfl
  · intro hact
    rw [degradeStep_confidence, degradeStep_failureCount]
    exact degradeStep_retiredAt_iff now c hact
  · intro hcond
    rw [degradeStep_confidence, degradeStep_failureCount] at hcond
    simp only [degradeSelector, hfind]
    rw [if_pos hcond]
    have hrows1 : (recordInteraction s.store id InteractionAction.failure 0 now).selectors.filter
        (fun r => r.id == id) = [rowFailure now c] := by
      rw [rowsFor_recordInteraction_failure, hrows]
      rfl
    have hany : (recordInteraction s.store id InteractionAction.failure 0 now).selectors.any
        (fun r => r.id == id) = true :=
      any_true_of_filter_eq _ _ _ hrows1
    rw [filter_saveSelector_id _ _ id (by rw [degradeStep_id]; exact hcid) hany, hrows1]
    rfl
  · intro hc
    have hcond : max 0 (c.confidence - 10) < 10 ∧ 5 < c.failureCount + 1 := by
      rw [hc.1, hc.2]
      norm_num
    refine ⟨?_, ?_, ?_⟩
    · unfold degradeStep
      rw [if_pos hcond]
    · rw [degradeStep_confidence, hc.1]
      norm_num
    · rw [degradeStep_failureCount, hc.2]

/-- Witness for C3: the concrete candidate at confidence 15 with failureCount
5 is retired by one degradeSelector call at time 7, ending at confidence 5
and failureCount 6. -/
theorem degradeSelector_spec_witness :
    (degradeStep 7 cC3).retiredAt = some 7
  ∧ (degradeStep 7 cC3).confidence = 5
  ∧ (degradeStep 7 cC3).failureCount = 6 :=
  (degradeSelector_spec sC3 ("a") 7 cC3 rfl rfl).2.2.2.2.2.2.1 ⟨rfl, rfl⟩

/-- DegradeStep sets retiredAt when the threshold condition holds. -/
lemma degradeStep_retiredAt_of_cond (now : ℕ) (c : SelectorCandidate)
    (h : max 0 (c.confidence - 10) < 10 ∧ 5 < c.failureCount + 1) :
    (degradeStep now c).retiredAt = some now := by
  unfold degradeStep
  rw [if_pos h]

/-- Counterexample to C4 as stated: updateMemoryCache never checks retiredAt,
so a second degradeSelector call aimed at an already retired candidate still
mutates it: starting from confidence 5 and failureCount 5, the first call
retires the candidate at time 1 with failureCount 6; the second call pushes
failureCount to 7 and overwrites retiredAt with time 2. -/
theorem retired_terminal_counterexample :
    (bankFind sC4a.bank ("a")).map (fun c => c.retiredAt) = some (some 1)
  ∧ (bankFind sC4a.bank ("a")).map (fun c => c.failureCount) = some 6
  ∧ (bankFind sC4b.bank ("a")).map (fun c => c.failureCount) = some 7
  ∧ (bankFind sC4b.bank ("a")).map (fun c => c.retiredAt) = some (some 2) := by
  have hfind0 : bankFind sC4.bank ("a") = some cC4 := rfl
  have hcond1 : max (0 : ℚ) (cC4.confidence - 10) < 10 ∧ 5 < cC4.failureCount + 1 := by
    constructor
    · norm_num [cC4, mkCandidate, max_def]
    · norm_num [cC4, mkCandidate]
  have hX : bankFind sC4a.bank ("a") = some (degradeStep 1 cC4) := by
    have h1 := bankFind_degradeSelector sC4 ("a") 1
    rw [hfind0] at h1
    simpa using h1
  have hfc1 : (degradeStep 1 cC4).failureCount = 6 := by
    rw [degradeStep_failureCount]
    rfl
  have hconf1 : (degradeStep 1 cC4).confidence = max 0 (cC4.confidence - 10) :=
    degradeStep_confidence 1 cC4
  have hcond2 : max (0 : ℚ) ((degradeStep 1 cC4).confidence - 10) < 10
      ∧ 5 < (degradeStep 1 cC4).failureCount + 1 := by
    constructor
    · rw [hconf1]
      norm_num [cC4, mkCandidate, max_def]
    · rw [hfc1]
      norm_num
  have hY : bankFind sC4b.bank ("a") = some (degradeStep 2 (degradeStep 1 cC4)) := by
    have h1 := bankFind_degradeSelector sC4a ("a") 2
    rw [hX] at h1
    simpa using h1
  refine ⟨?_, ?_, ?_, ?_⟩
  · rw [hX]
    simp only [Option.map_some']
    rw [degradeStep_retiredAt_of_cond 1 cC4 hcond1]
  · rw [hX]
    simp only [Option.map_some']
    rw [hfc1]
  · rw [hY]
    simp only [Option.map_some']
    rw [degradeStep_failureCount, hfc1]
  · rw [hY]
    simp only [Option.map_some']
    rw [degradeStep_retiredAt_of_cond 2 (degradeStep 1 cC4) hcond2]

/-- Retiredness of the candidate found for an id survives one promote or
degrade operation sequence (adds excluded, since a colliding add could
shadow the id in find order). -/
lemma retired_preserved_aux : ∀ (ops : List BankOp) (s : SysState),
    (∀ op ∈ ops, isInteraction op) →
    ∀ (id : String) (c : SelectorCandidate),
      bankFind s.bank id = some c → c.retiredAt ≠ none →
      ∃ c2, bankFind (runOps s ops).bank id = some c2 ∧ c2.retiredAt ≠ none
  | [], _, _, _, c, hfind, hret => ⟨c, hfind, hret⟩
  | op :: rest, s, hops, id, c, hfind, hret => by
      have hstep : ∃ c1, bankFind (runOp s op).bank id = some c1 ∧ c1.retiredAt ≠ none := by
        rcases op with ⟨et, strat, v, q, conf, idd, noww⟩ | ⟨idd, rt, noww⟩ | ⟨idd, noww⟩
        · exact (hops _ (List.mem_cons_self _ _)).elim
        · by_cases he : id = idd
          · subst he
            refine ⟨promoteStep noww rt c, ?_, ?_⟩
            · show bankFind (promoteSelector s id rt noww).bank id = _
              rw [bankFind_promoteSelector, hfind]
              rfl
            · rw [promoteStep_retiredAt]
              exact hret
          · exact ⟨c,
              (bankFind_bankUpdate_other idd id he (promoteStep noww rt) (fun _ => rfl) s.bank).trans hfind,
              hret⟩
        · by_cases he : id = idd
          · subst he
            refine ⟨degradeStep noww c, ?_, degradeStep_retired noww c hret⟩
            show bankFind (degradeSelector s id noww).bank id = _
            rw [bankFind_degradeSelector, hfind]
            rfl
          · exact ⟨c,
              (bankFind_bankUpdate_other idd id he (degradeStep noww) (degradeStep_id noww) s.bank).trans hfind,
              hret⟩
      rcases hstep with ⟨c1, h1, h2⟩
      exact retired_preserved_aux rest (runOp s op)
        (fun o ho => hops o (List.mem_cons_of_mem _ ho)) id c1 h1 h2

/-- C4 amended: a retired candidate is permanently excluded from every
getCandidates result, and across any sequence of promoteSelector and
degradeSelector calls the candidate found for its id stays retired
(retiredAt never returns to null). However, contrary to the claim as stated,
such calls may still mutate the retired candidate (see the counterexample):
the code does not make the retired state immutable, it only keeps it
non-null and invisible to ranking. -/
theorem retired_stays_retired (s : SysState) (ops : List BankOp)
    (hops : ∀ op ∈ ops, isInteraction op) :
    (∀ (bank : Bank) (et : String) (q : UIContext) (c : SelectorCandidate),
        c ∈ getCandidates bank et q → c.retiredAt = none)
  ∧ (∀ (id : String) (c : SelectorCandidate),
        bankFind s.bank id = some c → c.retiredAt ≠ none →
        ∃ c2, bankFind (runOps s ops).bank id = some c2 ∧ c2.retiredAt ≠ none) := by
  constructor
  · intro bank et q c hc
    exact ((mem_getCandidates bank et q c).mp hc).2.2
  · exact retired_preserved_aux ops s hops

/-- Witness for the amended C4: the candidate retired at time 1 is still
retired after a further promote call. -/
theorem retired_stays_retired_witness :
    ∃ c2, bankFind (runOps sC4a [BankOp.promote ("a") 1 3]).bank ("a") = some c2
      ∧ c2.retiredAt ≠ none := by
  have hfind0 : bankFind sC4.bank ("a") = some cC4 := rfl
  have hcond1 : max (0 : ℚ) (cC4.confidence - 10) < 10 ∧ 5 < cC4.failureCount + 1 := by
    constructor
    · norm_num [cC4, mkCandidate, max_def]
    · norm_num [cC4, mkCandidate]
  have hX : bankFind sC4a.bank ("a") = some (degradeStep 1 cC4) := by
    have h1 := bankFind_degradeSelector sC4 ("a") 1
    rw [hfind0] at h1
    simpa using h1
  have hret : (degradeStep 1 cC4).retiredAt ≠ none := by
    rw [degradeStep_retiredAt_of_cond 1 cC4 hcond1]
    simp
  exact (retired_stays_retired sC4a [BankOp.promote ("a") 1 3]
      (by
        intro op hop
        rcases List.mem_singleton.mp hop with rfl
        exact trivial)).2
    ("a") (degradeStep 1 cC4) hX hret

/-- BankIds of ((k, cs) :: rest). -/
lemma bankIds_cons (k : String) (cs : List SelectorCandidate) (rest : Bank) :
    bankIds ((k, cs) :: rest) = cs.map (fun c => c.id) ++ bankIds rest := rfl

/-- BankUpdate does not change the stored ids. -/
lemma bankIds_bankUpdate (id : String) (f : SelectorCandidate → SelectorCandidate)
    (hf : ∀ x, (f x).id = x.id) :
    ∀ bank : Bank, bankIds (bankUpdate id f bank) = bankIds bank
  | [] => rfl
  | (k, cs) :: rest => by
      rw [bankUpdate]
      by_cases h : bankHas cs id
      · rw [if_pos h, bankIds_cons, bankIds_cons,
          map_id_updateFirst (fun c => c.id == id) f hf cs]
      · rw [if_neg h, bankIds_cons, bankIds_cons, bankIds_bankUpdate id f hf rest]

/-- PromoteSelector does not change the stored ids. -/
lemma bankIds_promoteSelector (s : SysState) (id : String) (rt : ℚ) (now : ℕ) :
    bankIds (promoteSelector s id rt now).bank = bankIds s.bank :=
  bankIds_bankUpdate id (promoteStep now rt) (fun _ => rfl) s.bank

/-- DegradeSelector does not change the stored ids. -/
lemma bankIds_degradeSelector (s : SysState) (id : String) (now : ℕ) :
    bankIds (degradeSelector s id now).bank = bankIds s.bank :=
  bankIds_bankUpdate id (degradeStep now) (degradeStep_id now) s.bank

/-- Folding degradations over a failed prefix does not change the stored ids. -/
lemma bankIds_degradeFold (dur : SelectorCandidate → ℕ) (start : ℕ) :
    ∀ (l : List SelectorCandidate) (s : SysState) (elapsed : ℕ),
      bankIds ((degradeFold dur start s elapsed l).1).bank = bankIds s.bank
  | [], _, _ => rfl
  | c :: cs, s, elapsed => by
      rw [degradeFold]
      exact (bankIds_degradeFold dur start cs _ _).trans
        (bankIds_degradeSelector s c.id (start + (elapsed + dur c)))

/-- The resolveElement loop does not change the stored ids. -/
lemma bankIds_resolveElementGo (page : String → Bool) (dur : SelectorCandidate → ℕ) (start : ℕ) :
    ∀ (l : List SelectorCandidate) (s : SysState) (elapsed : ℕ),
      bankIds ((resolveElementGo page dur start s elapsed l).1).bank = bankIds s.bank
  | [], _, _ => rfl
  | c :: cs, s, elapsed => by
      simp only [resolveElementGo]
      split
      · exact bankIds_promoteSelector s c.id _ _
      · exact (bankIds_resolveElementGo page dur start cs _ _).trans
          (bankIds_degradeSelector s c.id _)

/-- The loop on an all-failing candidate list degrades each candidate in order
and returns null. -/
lemma resolveElementGo_all_fail (page : String → Bool) (dur : SelectorCandidate → ℕ) (start : ℕ) :
    ∀ (l : List SelectorCandidate) (s : SysState) (elapsed : ℕ),
      (∀ c ∈ l, page (normalizeSelector c) = false) →
      resolveElementGo page dur start s elapsed l = ((degradeFold dur start s elapsed l).1, none)
  | [], _, _, _ => rfl
  | c :: cs, s, elapsed, h => by
      have hc := h c (List.mem_cons_self c cs)
      have ih := resolveElementGo_all_fail page dur start cs
        (degradeSelector s c.id (start + (elapsed + dur c))) (elapsed + dur c)
        (fun d hd => h d (List.mem_cons_of_mem c hd))
      simp only [resolveElementGo, degradeFold, hc, Bool.false_eq_true, if_false]
      exact ih

/-- The loop promotes the first succeeding candidate with the elapsed time
since loop start, after degrading exactly the failed prefix. -/
lemma resolveElementGo_prefix_success (page : String → Bool) (dur : SelectorCandidate → ℕ)
    (start : ℕ) :
    ∀ (l₁ : List SelectorCandidate) (c : SelectorCandidate) (l₂ : List SelectorCandidate)
      (s : SysState) (elapsed : ℕ),
      (∀ d ∈ l₁, page (normalizeSelector d) = false) →
      page (normalizeSelector c) = true →
      resolveElementGo page dur start s elapsed (l₁ ++ c :: l₂)
        = (promoteSelector (degradeFold dur start s elapsed l₁).1 c.id
            (((degradeFold dur start s elapsed l₁).2 + dur c : ℕ) : ℚ)
            (start + ((degradeFold dur start s elapsed l₁).2 + dur c)), some c)
  | [], c, l₂, s, elapsed, _, hc => by
      simp [resolveElementGo, degradeFold, hc]
  | d :: l₁, c, l₂, s, elapsed, h, hc => by
      have hd := h d (List.mem_cons_self d l₁)
      have ih := resolveElementGo_prefix_success page dur start l₁ c l₂
        (degradeSelector s d.id (start + (elapsed + dur d))) (elapsed + dur d)
        (fun x hx => h x (List.mem_cons_of_mem d hx)) hc
      simp only [List.cons_append, resolveElementGo, degradeFold, hd, Bool.false_eq_true, if_false]
      exact ih

/-- C5: resolveElement returns null at once on an empty ranked list; otherwise
it probes candidates strictly in rank order, degrading each failed or
timed-out candidate (page returning false) before the next; the first
successful probe promotes that candidate with the elapsed time since the loop
started (the accumulated probe durations) and returns it without probing
further; if every candidate fails, the result is null after degrading every
candidate, and no candidate is ever created (the stored ids are unchanged in
all cases). -/
theorem resolveElement_spec (page : String → Bool) (dur : SelectorCandidate → ℕ) (start : ℕ)
    (s : SysState) (et : String) (q : UIContext) :
    (getCandidates s.bank et q = [] → resolveElement page dur start s et q = (s, none))
  ∧ (∀ (l₁ : List SelectorCandidate) (c : SelectorCandidate) (l₂ : List SelectorCandidate),
      getCandidates s.bank et q = l₁ ++ c :: l₂ →
      (∀ d ∈ l₁, page (normalizeSelector d) = false) →
      page (normalizeSelector c) = true →
      resolveElement page dur start s et q
        = (promoteSelector (degradeFold dur start s 0 l₁).1 c.id
            (((degradeFold dur start s 0 l₁).2 + dur c : ℕ) : ℚ)
            (start + ((degradeFold dur start s 0 l₁).2 + dur c)), some c))
  ∧ ((∀ d ∈ getCandidates s.bank et q, page (normalizeSelector d) = false) →
      resolveElement page dur start s et q
        = ((degradeFold dur start s 0 (getCandidates s.bank et q)).1, none))
  ∧ bankIds ((resolveElement page dur start s et q).1).bank = bankIds s.bank := by
  refine ⟨?_, ?_, ?_, ?_⟩
  · intro h
    simp [resolveElement, h]
  · intro l₁ c l₂ heq h1 hc
    have hne : (l₁ ++ c :: l₂).isEmpty = false := by cases l₁ <;> rfl
    simp only [resolveElement, heq, hne, Bool.false_eq_true, if_false]
    exact resolveElementGo_prefix_success page dur start l₁ c l₂ s 0 h1 hc
  · intro h
    rcases hcs : getCandidates s.bank et q with _ | ⟨c, cs⟩
    · simp [resolveElement, hcs, degradeFold]
    · have hne : (c :: cs).isEmpty = false := rfl
      simp only [resolveElement, hcs, hne, Bool.false_eq_true, if_false]
      exact resolveElementGo_all_fail page dur start (c :: cs) s 0 (hcs ▸ h)
  · simp only [resolveElement]
    split
    · rfl
    · exact bankIds_resolveElementGo page dur start _ s 0

/-- Witness for C5: on the two-candidate bank where only the lower-confidence
expression selB matches, resolveElement degrades the failed leader and then
promotes the succeeding candidate with the elapsed time, returning it. -/
theorem resolveElement_spec_witness :
    resolveElement pageB durOne 0 sAB ("x") ctxD
      = (promoteSelector (degradeFold durOne 0 sAB 0 [cA]).1 cB.id
          (((degradeFold durOne 0 sAB 0 [cA]).2 + durOne cB : ℕ) : ℚ)
          (0 + ((degradeFold durOne 0 sAB 0 [cA]).2 + durOne cB)), some cB) :=
  (resolveElement_spec pageB durOne 0 sAB ("x") ctxD).2.1 [cA] cB []
    (by rfl)
    (by
      intro d hd
      rcases List.mem_singleton.mp hd with rfl
      rfl)
    rfl

/-- The end-to-end resolution on the seeded two-candidate bank: the leader
fails, is degraded at elapsed time 1, then the second candidate matches and
is promoted with elapsed time 2. -/
lemma sAB_resolve_state :
    resolveElement pageB durOne 0 sAB ("x") ctxD
      = (promoteSelector (degradeSelector sAB cA.id 1) cB.id ((2 : ℕ) : ℚ) 2, some cB) := by
  have h := resolveElementGo_prefix_success pageB durOne 0 [cA] cB [] sAB 0
    (by
      intro d hd
      rcases List.mem_singleton.mp hd with rfl
      rfl)
    rfl
  exact h

/-- After the end-to-end resolution the matching candidate ends at
confidence 55 (it started at 50 and promotion adds 5, capped at 100). -/
lemma sAB_conf_b :
    (bankFind (resolveElement pageB durOne 0 sAB ("x") ctxD).1.bank ("b")).map
      (fun c => c.confidence) = some 55 := by
  rw [sAB_resolve_state]
  have h1 : bankFind (degradeSelector sAB cA.id 1).bank cB.id = some cB := by
    have h2 := bankFind_bankUpdate_other cA.id cB.id (by decide) (degradeStep 1)
      (degradeStep_id 1) sAB.bank
    exact h2.trans rfl
  have h3 : bankFind (promoteSelector (degradeSelector sAB cA.id 1) cB.id ((2 : ℕ) : ℚ) 2).bank ("b")
      = some (promoteStep 2 ((2 : ℕ) : ℚ) cB) := by
    have h4 := bankFind_promoteSelector (degradeSelector sAB cA.id 1) cB.id ((2 : ℕ) : ℚ) 2
    rw [h1] at h4
    exact h4
  rw [h3, Option.map_some']
  have h5 : (promoteStep 2 ((2 : ℕ) : ℚ) cB).confidence = 55 := by
    show min 100 (cB.confidence + 5) = 55
    norm_num [cB, mkCandidate, min_def]
  rw [h5]

/-- After the end-to-end resolution the failed leader ends at confidence 80. -/
lemma sAB_conf_a :
    (bankFind (resolveElement pageB durOne 0 sAB ("x") ctxD).1.bank ("a")).map
      (fun c => c.confidence) = some 80 := by
  rw [sAB_resolve_state]
  have h1 : bankFind (promoteSelector (degradeSelector sAB cA.id 1) cB.id ((2 : ℕ) : ℚ) 2).bank ("a")
      = bankFind (degradeSelector sAB cA.id 1).bank ("a") :=
    bankFind_bankUpdate_other cB.id ("a") (by decide) (promoteStep 2 ((2 : ℕ) : ℚ))
      (fun _ => rfl) (degradeSelector sAB cA.id 1).bank
  have h2 : bankFind (degradeSelector sAB cA.id 1).bank ("a") = some (degradeStep 1 cA) := by
    have h3 := bankFind_degradeSelector sAB cA.id 1
    exact h3.trans rfl
  rw [h1, h2, Option.map_some']
  have h4 : (degradeStep 1 cA).confidence = 80 := by
    rw [degradeStep_confidence]
    norm_num [cA, mkCandidate, max_def]
  rw [h4]

/-- Counterexample to C6 as stated: in the seeded scenario the 90-confidence
candidate is indeed ranked first, but resolving against a page where only the
50-confidence expression matches promotes that candidate to 55, not 95, since
promotion adds 5 capped at 100. -/
theorem endToEnd_counterexample :
    (getCandidates sAB.bank ("x") ctxD).head? = some cA
  ∧ (bankFind (resolveElement pageB durOne 0 sAB ("x") ctxD).1.bank ("b")).map
      (fun c => c.confidence) = some 55
  ∧ ¬ ((55 : ℚ) = 95) :=
  ⟨rfl, sAB_conf_b, by norm_num⟩

/-- C6 amended: getCandidates ranks the 90-confidence candidate first;
resolving against a page where only the 50-confidence expression matches
promotes the 50-confidence candidate to 55 (promotion is
min 100 (confidence + 5)) and degrades the 90-confidence candidate to 80. -/
theorem endToEnd_amended :
    (getCandidates sAB.bank ("x") ctxD).head? = some cA
  ∧ (bankFind (resolveElement pageB durOne 0 sAB ("x") ctxD).1.bank ("b")).map
      (fun c => c.confidence) = some 55
  ∧ (bankFind (resolveElement pageB durOne 0 sAB ("x") ctxD).1.bank ("a")).map
      (fun c => c.confidence) = some 80 :=
  ⟨rfl, sAB_conf_b, sAB_conf_a⟩

/-- Counterexample to C7 as stated: after a promoteSelector call the
in-memory confidence is 55 while the durable row keeps confidence 50 — the
success UPDATE of recordInteraction touches counters, timestamp and average
but not the confidence column, and promoteSelector never calls saveSelector. -/
theorem persistence_confidence_counterexample :
    (bankFind sC7p.bank ("a")).map (fun c => c.confidence) = some 55
  ∧ (sC7p.store.selectors.map (fun c => c.confidence)) = [50]
  ∧ ¬ ((55 : ℚ) = 50) := by
  refine ⟨?_, rfl, by norm_num⟩
  have h1 : bankFind sC7p.bank ("a")
      = some (promoteStep 1 100 (mkCandidate ("t") SelectorStrategy.css ("v") ctxD 50 ("a") 0)) := by
    have h2 := bankFind_promoteSelector sC7 ("a") 100 1
    exact h2.trans rfl
  rw [h1, Option.map_some']
  have h3 : (promoteStep 1 100 (mkCandidate ("t") SelectorStrategy.css ("v") ctxD 50 ("a") 0)).confidence
      = 55 := by
    show min 100 ((mkCandidate ("t") SelectorStrategy.css ("v") ctxD 50 ("a") 0).confidence + 5) = 55
    norm_num [mkCandidate, min_def]
  rw [h3]

/-- C7 amended: after every promoteSelector or degradeSelector call the Bank
appends the interaction record to the durable history, and the durable row is
updated to match the in-memory candidate on the counter, timestamp and (on
success) running-average fields — but its confidence column keeps its prior
value: confidence reaches the store only through addCandidate and through the
auto-retirement save, in which case the whole retired candidate is persisted. -/
theorem interaction_persistence (s : SysState) (id : String) (rt : ℚ) (now : ℕ)
    (c : SelectorCandidate)
    (hb : bankFind s.bank id = some c)
    (hr : s.store.selectors.filter (fun r => r.id == id) = [c]) :
    (promoteSelector s id rt now).store.history
      = s.store.history ++ [⟨id, now, InteractionAction.success, rt, none⟩]
  ∧ (promoteSelector s id rt now).store.selectors.filter (fun r => r.id == id)
      = [{ promoteStep now rt c with confidence := c.confidence }]
  ∧ (degradeSelector s id now).store.history
      = s.store.history ++ [⟨id, now, InteractionAction.failure, 0, none⟩]
  ∧ (¬ (max 0 (c.confidence - 10) < 10 ∧ 5 < c.failureCount + 1) →
      (degradeSelector s id now).store.selectors.filter (fun r => r.id == id)
        = [{ degradeStep now c with confidence := c.confidence }])
  ∧ ((max 0 (c.confidence - 10) < 10 ∧ 5 < c.failureCount + 1) →
      (degradeSelector s id now).store.selectors.filter (fun r => r.id == id)
        = [degradeStep now c]) := by
  have hcid : c.id = id := bankFind_id s.bank id c hb
  refine ⟨rfl, ?_, ?_, ?_, ?_⟩
  · show (recordInteraction s.store id InteractionAction.success rt now).selectors.filter
        (fun r => r.id == id) = _
    rw [rowsFor_recordInteraction_success, hr]
    rfl
  · simp only [degradeSelector, hb]
    split
    · unfold saveSelector
      split <;> rfl
    · rfl
  · intro hncond
    have hds : degradeStep now c
        = { c with
              failureCount := c.failureCount + 1
              lastFailure := some now
              confidence := max 0 (c.confidence - 10) } := by
      unfold degradeStep
      rw [if_neg hncond]
    simp only [degradeSelector, hb]
    rw [if_neg hncond]
    show (recordInteraction s.store id InteractionAction.failure 0 now).selectors.filter
        (fun r => r.id == id) = _
    rw [rowsFor_recordInteraction_failure, hr, hds]
    rfl
  · intro hcond
    simp only [degradeSelector, hb]
    rw [if_pos hcond]
    have hrows1 : (recordInteraction s.store id InteractionAction.failure 0 now).selectors.filter
        (fun r => r.id == id) = [rowFailure now c] := by
      rw [rowsFor_recordInteraction_failure, hr]
      rfl
    have hany : (recordInteraction s.store id InteractionAction.failure 0 now).selectors.any
        (fun r => r.id == id) = true :=
      any_true_of_filter_eq _ _ _ hrows1
    rw [filter_saveSelector_id _ _ id (by rw [degradeStep_id]; exact hcid) hany, hrows1]
    rfl

/-- Witness for the amended C7: on the freshly added candidate, one promote
call appends the success record and the durable row matches the promoted
candidate except for keeping confidence 50. -/
theorem interaction_persistence_witness :
    (promoteSelector sC7 ("a") 100 1).store.history
      = sC7.store.history ++ [⟨("a"), 1, InteractionAction.success, (100 : ℚ), none⟩]
  ∧ (promoteSelector sC7 ("a") 100 1).store.selectors.filter (fun r => r.id == ("a"))
      = [{ promoteStep 1 100 (mkCandidate ("t") SelectorStrategy.css ("v") ctxD 50 ("a") 0) with
            confidence := (mkCandidate ("t") SelectorStrategy.css ("v") ctxD 50 ("a") 0).confidence }] :=
  ⟨(interaction_persistence sC7 ("a") 100 1
      (mkCandidate ("t") SelectorStrategy.css ("v") ctxD 50 ("a") 0) rfl rfl).1,
   (interaction_persistence sC7 ("a") 100 1
      (mkCandidate ("t") SelectorStrategy.css ("v") ctxD 50 ("a") 0) rfl rfl).2.1⟩

/-- The plural-query loop leaves the state untouched when no candidate
yields matches. -/
lemma resolveElementsGo_all_fail (pageAll : String → List ℕ) (now : ℕ) :
    ∀ (l : List SelectorCandidate) (s : SysState),
      (∀ c ∈ l, pageAll (normalizeSelector c) = []) →
      resolveElementsGo pageAll now s l = (s, [])
  | [], _, _ => rfl
  | c :: cs, s, h => by
      have hc := h c (List.mem_cons_self c cs)
      simp only [resolveElementsGo, hc, List.length_nil, lt_self_iff_false, if_false]
      exact resolveElementsGo_all_fail pageAll now cs s
        (fun d hd => h d (List.mem_cons_of_mem c hd))

/-- The plural-query loop skips an all-failing prefix with no state change and
promotes the first candidate with one or more matches, with responseTime 0. -/
lemma resolveElementsGo_prefix_success (pageAll : String → List ℕ) (now : ℕ) :
    ∀ (l₁ : List SelectorCandidate) (c : SelectorCandidate) (l₂ : List SelectorCandidate)
      (s : SysState),
      (∀ d ∈ l₁, pageAll (normalizeSelector d) = []) →
      pageAll (normalizeSelector c) ≠ [] →
      resolveElementsGo pageAll now s (l₁ ++ c :: l₂)
        = (promoteSelector s c.id 0 now, pageAll (normalizeSelector c))
  | [], c, l₂, s, _, hc => by
      have hlen : 0 < (pageAll (normalizeSelector c)).length := List.length_pos.mpr hc
      simp only [List.nil_append, resolveElementsGo, if_pos hlen]
  | d :: l₁, c, l₂, s, h, hc => by
      have hd := h d (List.mem_cons_self d l₁)
      simp only [List.cons_append, resolveElementsGo, hd, List.length_nil,
        lt_self_iff_false, if_false]
      exact resolveElementsGo_prefix_success pageAll now l₁ c l₂ s
        (fun x hx => h x (List.mem_cons_of_mem d hx)) hc

/-- Counterexample to C8 as stated: a candidate whose plural query yields no
matches is skipped without any confidence decay — resolveElements never calls
degradeSelector, so after an all-failing resolution the state is exactly the
input state and the candidate keeps confidence 50 and failureCount 0, rather
than decaying to 40. -/
theorem resolveElements_no_decay_counterexample :
    resolveElements pageNone 5 sC7 ("t") ctxD = (sC7, [])
  ∧ (bankFind sC7.bank ("a")).map (fun c => c.confidence) = some 50
  ∧ (bankFind sC7.bank ("a")).map (fun c => c.failureCount) = some 0
  ∧ ¬ ((50 : ℚ) = 40) := by
  refine ⟨?_, rfl, rfl, by norm_num⟩
  show resolveElementsGo pageNone 5 sC7 (getCandidates sC7.bank ("t") ctxD) = (sC7, [])
  exact resolveElementsGo_all_fail pageNone 5 _ sC7 (fun d _ => rfl)

/-- C8 amended: resolveElements iterates the ranked candidates in order; a
candidate whose plural query yields no matches is skipped non-fatally with no
state change at all (no confidence decay and nothing thrown — the embedding
is a total function); the first candidate yielding one or more matches is
promoted with responseTime 0 and its matches are returned; if all candidates
fail an empty sequence is returned with the state untouched. -/
theorem resolveElements_spec (pageAll : String → List ℕ) (now : ℕ) (s : SysState)
    (et : String) (q : UIContext) :
    (∀ (l₁ : List SelectorCandidate) (c : SelectorCandidate) (l₂ : List SelectorCandidate),
      getCandidates s.bank et q = l₁ ++ c :: l₂ →
      (∀ d ∈ l₁, pageAll (normalizeSelector d) = []) →
      pageAll (normalizeSelector c) ≠ [] →
      resolveElements pageAll now s et q
        = (promoteSelector s c.id 0 now, pageAll (normalizeSelector c)))
  ∧ ((∀ d ∈ getCandidates s.bank et q, pageAll (normalizeSelector d) = []) →
      resolveElements pageAll now s et q = (s, [])) := by
  constructor
  · intro l₁ c l₂ heq h1 hc
    show resolveElementsGo pageAll now s (getCandidates s.bank et q) = _
    rw [heq]
    exact resolveElementsGo_prefix_success pageAll now l₁ c l₂ s h1 hc
  · intro h
    exact resolveElementsGo_all_fail pageAll now _ s h

/-- Witness for the amended C8: on the two-candidate bank, the leader yields
no matches and is skipped unchanged; the second candidate yields a match and
is promoted with responseTime 0. -/
theorem resolveElements_spec_witness :
    resolveElements pageAllB 3 sAB ("x") ctxD
      = (promoteSelector sAB cB.id 0 3, pageAllB (normalizeSelector cB)) :=
  (resolveElements_spec pageAllB 3 sAB ("x") ctxD).1 [cA] cB []
    rfl
    (by
      intro d hd
      rcases List.mem_singleton.mp hd with rfl
      rfl)
    (by decide)

/-- Counterexample to C9 as stated: addCandidate performs no uniqueness check
on the randomly drawn id, so two adds whose draws collide on the string dup
leave two distinct candidates with the same id in the bank; in the store the
second INSERT OR REPLACE silently overwrites the first row (only the value v2
survives). -/
theorem id_unique_counterexample :
    ((mapGet sDup.bank ("t")).map (fun c => c.id)) = ["dup", "dup"]
  ∧ ¬ (((mapGet sDup.bank ("t")).map (fun c => c.id)).Nodup)
  ∧ (sDup.store.selectors.map (fun c => c.selectorValue)) = ["v2"] := by
  refine ⟨rfl, ?_, rfl⟩
  intro hnd
  have h2 : (["dup", "dup"] : List String).Nodup := hnd
  exact absurd h2 (by decide)

/-- Adding one candidate extends the stored ids by its id, up to permutation. -/
lemma bankIds_mapSet_add : ∀ (bank : Bank) (k : String) (c : SelectorCandidate),
    List.Perm (bankIds (mapSet bank k (mapGet bank k ++ [c]))) (bankIds bank ++ [c.id])
  | [], k, c => List.Perm.refl _
  | (k2, cs) :: rest, k, c => by
      by_cases h : (k2 == k) = true
      · have hget : mapGet ((k2, cs) :: rest) k = cs := by
          simp [mapGet, List.find?, h]
        have hset : mapSet ((k2, cs) :: rest) k (mapGet ((k2, cs) :: rest) k ++ [c])
            = (k, cs ++ [c]) :: rest := by
          rw [hget, mapSet]
          simp only [h, if_true]
        rw [hset, bankIds_cons, bankIds_cons, List.map_append, List.append_assoc,
          List.append_assoc]
        exact List.Perm.append_left _ List.perm_append_comm
      · have hget : mapGet ((k2, cs) :: rest) k = mapGet rest k := by
          simp [mapGet, List.find?, h]
        have hset : mapSet ((k2, cs) :: rest) k (mapGet ((k2, cs) :: rest) k ++ [c])
            = (k2, cs) :: mapSet rest k (mapGet rest k ++ [c]) := by
          rw [hget, mapSet]
          simp only [h, Bool.false_eq_true, if_false]
        rw [hset, bankIds_cons, bankIds_cons, List.append_assoc]
        exact List.Perm.append_left _ (bankIds_mapSet_add rest k c)

/-- One operation extends the stored ids by the ids it draws, up to
permutation. -/
lemma bankIds_runOp_perm (s : SysState) (op : BankOp) :
    List.Perm (bankIds (runOp s op).bank) (bankIds s.bank ++ opAddIds op) := by
  rcases op with ⟨et, strat, v, q, conf, id, now⟩ | ⟨id, rt, now⟩ | ⟨id, now⟩
  · exact bankIds_mapSet_add s.bank et (mkCandidate et strat v q conf id now)
  · have h : bankIds (runOp s (BankOp.promote id rt now)).bank = bankIds s.bank :=
      bankIds_bankUpdate id (promoteStep now rt) (fun _ => rfl) s.bank
    rw [h]
    show List.Perm (bankIds s.bank) (bankIds s.bank ++ [])
    rw [List.append_nil]
  · have h : bankIds (runOp s (BankOp.degrade id now)).bank = bankIds s.bank :=
      bankIds_bankUpdate id (degradeStep now) (degradeStep_id now) s.bank
    rw [h]
    show List.Perm (bankIds s.bank) (bankIds s.bank ++ [])
    rw [List.append_nil]

/-- A run extends the stored ids by exactly the drawn ids, up to permutation. -/
lemma bankIds_runOps_perm : ∀ (ops : List BankOp) (s : SysState),
    List.Perm (bankIds (runOps s ops).bank) (bankIds s.bank ++ opsAddIds ops)
  | [], s => by
      show List.Perm (bankIds s.bank) (bankIds s.bank ++ [])
      rw [List.append_nil]
  | op :: rest, s => by
      have h1 := bankIds_runOps_perm rest (runOp s op)
      have h2 := (bankIds_runOp_perm s op).append_right (opsAddIds rest)
      have h3 : List.Perm (bankIds (runOps s (op :: rest)).bank)
          ((bankIds s.bank ++ opAddIds op) ++ opsAddIds rest) := h1.trans h2
      rw [List.append_assoc] at h3
      exact h3

/-- A keyed row update never changes the list of row ids. -/
lemma mapIds_idUpdate (id : String) (g : SelectorCandidate → SelectorCandidate)
    (hg : ∀ r, r.id = id → (g r).id = id) :
    ∀ l : List SelectorCandidate,
      ((l.map (fun r => if r.id == id then g r else r)).map (fun r => r.id))
        = l.map (fun r => r.id)
  | [] => rfl
  | r :: t => by
      simp only [List.map_cons]
      by_cases h : (r.id == id) = true
      · rw [if_pos h, hg r (beq_iff_eq.mp h), beq_iff_eq.mp h,
          mapIds_idUpdate id g hg t]
      · rw [if_neg h, mapIds_idUpdate id g hg t]

/-- RecordInteraction never changes the list of row ids. -/
lemma storeIds_recordInteraction (st : StoreState) (id : String)
    (action : InteractionAction) (rt : ℚ) (now : ℕ) :
    ((recordInteraction st id action rt now).selectors.map (fun r => r.id))
      = st.selectors.map (fun r => r.id) := by
  cases action
  · exact mapIds_idUpdate id (rowSuccess now rt) (fun _ h => h) st.selectors
  · exact mapIds_idUpdate id (rowFailure now) (fun _ h => h) st.selectors

/-- SaveSelector keeps the row ids free of duplicates: a colliding insert
replaces in place (ids unchanged), a fresh insert appends an unseen id. -/
lemma storeIds_saveSelector (st : StoreState) (c : SelectorCandidate)
    (h : (st.selectors.map (fun r => r.id)).Nodup) :
    (((saveSelector st c).selectors.map (fun r => r.id)).Nodup) := by
  unfold saveSelector
  split
  case isTrue hany =>
    have heq := mapIds_idUpdate c.id (fun _ => c) (fun _ _ => rfl) st.selectors
    show ((st.selectors.map (fun r => if r.id == c.id then c else r)).map (fun r => r.id)).Nodup
    rw [heq]
    exact h
  case isFalse hany =>
    show (((st.selectors ++ [c]).map (fun r => r.id)).Nodup)
    rw [List.map_append]
    refine List.Nodup.append h (List.nodup_singleton c.id) ?_
    intro a ha hb
    rcases List.mem_singleton.mp hb with rfl
    rcases List.mem_map.mp ha with ⟨r, hr, hrid⟩
    have hfalse : ∀ x ∈ st.selectors, ¬ x.id = c.id := by simpa using hany
    exact hfalse r hr hrid

/-- One operation keeps the durable row ids free of duplicates. -/
lemma storeIds_nodup_runOp (s : SysState) (op : BankOp)
    (h : (s.store.selectors.map (fun r => r.id)).Nodup) :
    (((runOp s op).store.selectors.map (fun r => r.id)).Nodup) := by
  rcases op with ⟨et, strat, v, q, conf, id, now⟩ | ⟨id, rt, now⟩ | ⟨id, now⟩
  · exact storeIds_saveSelector s.store (mkCandidate et strat v q conf id now) h
  · show (((recordInteraction s.store id InteractionAction.success rt now).selectors.map
        (fun r => r.id)).Nodup)
    rw [storeIds_recordInteraction]
    exact h
  · show (((degradeSelector s id now).store.selectors.map (fun r => r.id)).Nodup)
    simp only [degradeSelector]
    split
    · split
      · apply storeIds_saveSelector
        rw [storeIds_recordInteraction]
        exact h
      · rw [storeIds_recordInteraction]
        exact h
    · rw [storeIds_recordInteraction]
      exact h

/-- The durable row ids stay free of duplicates across any whole run. -/
lemma storeIds_nodup_runOps : ∀ (ops : List BankOp) (s : SysState),
    (s.store.selectors.map (fun r => r.id)).Nodup →
    (((runOps s ops).store.selectors.map (fun r => r.id)).Nodup)
  | [], _, h => h
  | op :: rest, s, h =>
      storeIds_nodup_runOps rest (runOp s op) (storeIds_nodup_runOp s op h)

/-- C9 amended: addCandidate draws its id from an external random source with
no uniqueness check, so uniqueness holds exactly when the draws are fresh:
if the ids drawn by the add operations of a run are pairwise distinct and
distinct from every id already in the bank, all bank ids remain pairwise
distinct. Independently, the durable selectors table never holds two rows
with one id, because a colliding insert replaces the existing row in place
(at the price of silently losing it, as the counterexample shows). -/
theorem id_uniqueness (s : SysState) (ops : List BankOp)
    (h : (bankIds s.bank ++ opsAddIds ops).Nodup)
    (hst : (s.store.selectors.map (fun r => r.id)).Nodup) :
    (bankIds (runOps s ops).bank).Nodup
  ∧ (((runOps s ops).store.selectors.map (fun r => r.id)).Nodup) :=
  ⟨((bankIds_runOps_perm ops s).nodup_iff).mpr h,
   storeIds_nodup_runOps ops s hst⟩

/-- Witness for the amended C9: two adds with distinct draws keep both the
bank ids and the store ids duplicate free. -/
theorem id_uniqueness_witness :
    (bankIds (runOps emptyState
      [BankOp.add ("t") SelectorStrategy.css ("v1") ctxD 50 ("a1") 0,
       BankOp.add ("t") SelectorStrategy.css ("v2") ctxD 60 ("a2") 1]).bank).Nodup
  ∧ (((runOps emptyState
      [BankOp.add ("t") SelectorStrategy.css ("v1") ctxD 50 ("a1") 0,
       BankOp.add ("t") SelectorStrategy.css ("v2") ctxD 60 ("a2") 1]).store.selectors.map
        (fun r => r.id)).Nodup) :=
  id_uniqueness emptyState
    [BankOp.add ("t") SelectorStrategy.css ("v1") ctxD 50 ("a1") 0,
     BankOp.add ("t") SelectorStrategy.css ("v2") ctxD 60 ("a2") 1]
    (by decide) (by decide)
